import Mathlib

/-!
Shallow embedding of the kafka-websocket-shim repository: the stream
adapter's read/write framing logic (`pkg/shim`), the legacy shim variants,
and the forwarding proxy's dial/backoff logic (`cmd/kafka-websocket-proxy`).

Bytes are modelled as `Nat` values; every place the Go code relies on a
value being a `byte` applies `% 256`, and 32-bit machine arithmetic is
modelled on `Nat`/`Int` with explicit `% 2^32` reductions.
-/

namespace Shim

/-- Constant `websocket.TextMessage` in the gorilla/websocket library. -/
def textMessage : Nat := 1

/-- Constant `websocket.BinaryMessage` in the gorilla/websocket library. -/
def binaryMessage : Nat := 2

/-- Constant `int32Size` from `pkg/shim/shim.go` (also `sizeBytes` in the
legacy variants). -/
def int32Size : Nat := 4

/-- Reinterpret a `uint32` value (a `Nat` reduced mod `2^32`) as a Go
`int32`, i.e. two's-complement signed value. -/
def toInt32 (v : Nat) : Int :=
  if v % 4294967296 < 2147483648 then ((v % 4294967296 : Nat) : Int)
  else ((v % 4294967296 : Nat) : Int) - 4294967296

/-- Function `binary.BigEndian.Uint32` applied to four bytes: the first byte is the
most significant. -/
def beUint32 (b0 b1 b2 b3 : Nat) : Nat :=
  b0 % 256 * 16777216 + b1 % 256 * 65536 + b2 % 256 * 256 + b3 % 256

/-- The `uint32` value of the 4-byte length header at the front of a byte
sequence (callers establish `4 ≤ b.length` before using it, as the Go code
does via its length guard). -/
def headerVal (b : List Nat) : Nat :=
  match b with
  | b0 :: b1 :: b2 :: b3 :: _ => beUint32 b0 b1 b2 b3
  | _ => 0

/-- Function `parseInt32(a, b, c, d)` from the legacy shim variant: builds an
`int32` as `int32(a) | int32(b)<<8 | int32(c)<<16 | int32(d)<<24`.
Its comment reads "Assumes big endian byte order!". -/
def parseInt32 (a b c d : Nat) : Int :=
  toInt32 (a % 256 + b % 256 * 256 + c % 256 * 65536 + d % 256 * 16777216)

/-- Helper `MakeMsg(length, fill)` from the shim tests: a 4-byte big-endian
length header followed by `length` copies of `fill`. -/
def MakeMsg (length : Nat) (fill : Nat) : List Nat :=
  [length / 16777216 % 256, length / 65536 % 256, length / 256 % 256, length % 256]
    ++ List.replicate length (fill % 256)

/-- A complete ProtocolMessage: at least the 4-byte header is present and
the header's `int32` value equals the number of payload bytes that follow. -/
def IsCompleteMsg (b : List Nat) : Prop :=
  4 ≤ b.length ∧ toInt32 (headerVal b) = (b.length : Int) - 4

instance (b : List Nat) : Decidable (IsCompleteMsg b) := by
  unfold IsCompleteMsg; infer_instance

/-- One WebSocket message as seen by `ws.ReadMessage` / sent by
`ws.WriteMessage`: a message type tag and a byte payload. -/
structure Frame where
  msgType : Nat
  payload : List Nat
  deriving Repr, DecidableEq

/-- State of a `shim.Conn` on the read side: the script of WebSocket
messages the transport will deliver (in order), and the residual read
buffer `readBuff` holding the unread tail of the last message. -/
structure Conn where
  frames : List Frame
  readBuff : List Nat
  deriving Repr, DecidableEq

/-- Result of one `Conn.Read` call, keeping each `return` of the Go code:
`ok bytes` for `return n, nil` (with `n = bytes.length`),
`typeErr t` for `return 0, InvalidMessageTypeError(t)`, and
`transportErr` for `return 0, err` after a failed `ws.ReadMessage`. -/
inductive ReadResult where
  | ok (bytes : List Nat)
  | typeErr (msgType : Nat)
  | transportErr
  deriving Repr, DecidableEq

/-- The byte count returned by `Conn.Read` (first component of each Go
`return`). -/
def ReadResult.retCount : ReadResult → Nat
  | .ok bytes => bytes.length
  | .typeErr _ => 0
  | .transportErr => 0

/-- The bytes a `Conn.Read` call copied into the caller's buffer. -/
def ReadResult.retBytes : ReadResult → List Nat
  | .ok bytes => bytes
  | .typeErr _ => []
  | .transportErr => []

/-- Method `Conn.Read` from `pkg/shim/shim.go`, for a caller buffer of length
`sz`: drain `readBuff` first; otherwise receive one WebSocket message,
reject non-binary tags, copy what fits and buffer the rest.
`copy(b, bytes)` copies `min sz bytes.length` bytes, i.e. `bytes.take sz`. -/
def Conn.Read (c : Conn) (sz : Nat) : ReadResult × Conn :=
  if c.readBuff.length > 0 then
    (.ok (c.readBuff.take sz), { c with readBuff := c.readBuff.drop sz })
  else
    match c.frames with
    | [] => (.transportErr, c)
    | f :: rest =>
      if f.msgType ≠ binaryMessage then
        (.typeErr f.msgType, { c with frames := rest })
      else
        (.ok (f.payload.take sz), { frames := rest, readBuff := f.payload.drop sz })

/-- Run a sequence of `Conn.Read` calls with the given caller-buffer
sizes, concatenating the bytes delivered to the caller. -/
def readRun (c : Conn) : List Nat → List Nat × Conn
  | [] => ([], c)
  | sz :: szs =>
    let (r, c') := c.Read sz
    let (out, c'') := readRun c' szs
    (r.retBytes ++ out, c'')

/-- The bytes still owed to the caller: residual buffer plus the payloads
of the frames not yet received. -/
def Conn.pending (c : Conn) : List Nat :=
  c.readBuff ++ (c.frames.map Frame.payload).flatten

/-- How a `Conn.Write` call ended, keeping each `return` of the Go code:
`ok` for the final `return written, nil`; `PartialWriteErr e a` for
`return written, PartialWriteError{expected: e, actual: a}`; `sendFailed`
for `return written, errors.Wrap(err, "shim: websocket write failed")`;
`panicked` marks a slice expression `b[:totalSize]` whose bound is out of
range (a Go runtime panic); `looped` marks the run that never returns
(the loop re-examines the same bytes forever). -/
inductive WriteOutcome where
  | ok
  | PartialWriteErr (expected actual : Int)
  | sendFailed
  | panicked
  | looped
  deriving Repr, DecidableEq

/-- Result of a strict-policy `Conn.Write` call: the `written` count it
returned, how it ended, and the WebSocket messages passed to
`ws.WriteMessage`, in order. -/
structure WriteResult where
  written : Nat
  outcome : WriteOutcome
  sends : List Frame
  deriving Repr, DecidableEq

/-- The loop body of `Conn.Write` from `pkg/shim/shim.go`, strict policy.
`sendOk k` tells whether the `k`-th `ws.WriteMessage` call of this write
succeeds. `fuel` bounds the number of iterations; the caller passes
`b.length + 1`, enough for every terminating run (each iteration consumes
at least one input byte except the non-terminating `totalSize = 0` case,
reported as `looped`). -/
def writeLoop (sendOk : Nat → Bool) : Nat → List Nat → Nat → List Frame → WriteResult
  | 0, _, written, sends => ⟨written, .looped, sends⟩
  | fuel + 1, b, written, sends =>
    if b.length = 0 then ⟨written, .ok, sends⟩
    else if b.length < int32Size then
      ⟨written, .PartialWriteErr (int32Size : Int) (b.length : Int), sends⟩
    else
      let size := toInt32 (headerVal b)
      if (b.length : Int) - (int32Size : Int) < size then
        ⟨written, .PartialWriteErr size ((b.length : Int) - (int32Size : Int)), sends⟩
      else
        let totalSize : Int := (int32Size : Int) + size
        if totalSize < 0 then ⟨written, .panicked, sends⟩
        else
          let t := totalSize.toNat
          let frame : Frame := ⟨binaryMessage, b.take t⟩
          if sendOk sends.length then
            writeLoop sendOk fuel (b.drop t) (written + t) (sends ++ [frame])
          else ⟨written, .sendFailed, sends ++ [frame]⟩

/-- Method `Conn.Write` from `pkg/shim/shim.go` (strict-alignment policy). -/
def Conn.Write (sendOk : Nat → Bool) (b : List Nat) : WriteResult :=
  writeLoop sendOk (b.length + 1) b 0 []

/-- Result of an accumulating-policy `Conn.Write` call (legacy variant):
the `Int` value it returned, how it ended, the WebSocket messages passed
to `ws.WriteMessage` in order, and the pending write buffer `wBuf` after
the call. -/
structure AccWriteResult where
  ret : Int
  outcome : WriteOutcome
  sends : List Frame
  wBuf : List Nat
  deriving Repr, DecidableEq

/-- The loop body of the accumulating-policy `Conn.Write` (legacy shim
variant): flush complete messages from the head of `wBuf`; return `len(b)`
as soon as fewer than a full message remains; on completion or send
failure return `max(written, 0)`. -/
def accWriteLoop (sendOk : Nat → Bool) (lenB : Nat) :
    Nat → List Nat → Int → List Frame → AccWriteResult
  | 0, wBuf, _, sends => ⟨0, .looped, sends, wBuf⟩
  | fuel + 1, wBuf, written, sends =>
    if wBuf.length = 0 then ⟨max written 0, .ok, sends, wBuf⟩
    else if wBuf.length < int32Size then ⟨(lenB : Int), .ok, sends, wBuf⟩
    else
      let size := toInt32 (headerVal wBuf)
      if (wBuf.length : Int) - (int32Size : Int) < size then
        ⟨(lenB : Int), .ok, sends, wBuf⟩
      else
        let totalSize : Int := (int32Size : Int) + size
        if totalSize < 0 then ⟨0, .panicked, sends, wBuf⟩
        else
          let t := totalSize.toNat
          let frame : Frame := ⟨binaryMessage, wBuf.take t⟩
          if sendOk sends.length then
            accWriteLoop sendOk lenB fuel (wBuf.drop t)
              (written + (t : Int)) (sends ++ [frame])
          else ⟨max written 0, .sendFailed, sends ++ [frame], wBuf⟩

/-- The accumulating-policy `Conn.Write` (legacy shim variant): starts
with `written := -len(c.wBuf)`, appends `b` to the pending buffer, then
flushes complete messages from the buffer head. -/
def Conn.WriteAcc (sendOk : Nat → Bool) (wBuf b : List Nat) : AccWriteResult :=
  accWriteLoop sendOk b.length ((wBuf ++ b).length + 1) (wBuf ++ b)
    (-(wBuf.length : Int)) []

/-- A `context.Context` as far as this code base observes it: a
cancellation token. `Dialer.DialContext` receives one but never consults
it. -/
structure Ctx where
  cancelled : Bool
  deriving Repr, DecidableEq

/-- The context `context.Background()`. -/
def backgroundCtx : Ctx := ⟨false⟩

/-- Result of a dial: either a typed error or a connection handle
(abstracted as the URL string the WebSocket handshake connected to). -/
inductive DialResult where
  | invalidNetworkErr (network : String)
  | wrappedHandshakeErr
  | conn (url : String)
  deriving Repr, DecidableEq

/-- The URL string `Dialer.DialContext` builds:
`url.URL{Host: addr}` with scheme `wss` when TLS is configured, `ws`
otherwise. -/
def dialURL (tls : Bool) (addr : String) : String :=
  (if tls then "wss" else "ws") ++ "://" ++ addr

/-- Method `Dialer.DialContext` from `pkg/shim/shim.go`. `handshake` stands for
`websocket.DefaultDialer.Dial` (the non-contextual default dialer): it is
a function of the URL only. The `ctx` parameter is accepted but never
inspected, exactly as in the source. -/
def Dialer.DialContext (handshake : String → Bool) (tls : Bool) (ctx : Ctx)
    (network addr : String) : DialResult :=
  if network ≠ "tcp" then .invalidNetworkErr network
  else
    let u := dialURL tls addr
    if handshake u then .conn u else .wrappedHandshakeErr

/-- Method `Dialer.Dial` from `pkg/shim/shim.go`: delegates to `DialContext`
with `context.Background()`. -/
def Dialer.Dial (handshake : String → Bool) (tls : Bool)
    (network addr : String) : DialResult :=
  Dialer.DialContext handshake tls backgroundCtx network addr

end Shim

namespace Proxy

/-- Constant `dialBrokerRetries` from `cmd/kafka-websocket-proxy/main.go`. -/
def dialBrokerRetries : Nat := 5

/-- Constant `dialBrokerWait` (200ms), in milliseconds. -/
def dialBrokerWait : Nat := 200

/-- Constant `dialBrokerBackoff` (the wait multiplier). -/
def dialBrokerBackoff : Nat := 2

/-- Result of `dialBroker`: whether a connection was returned, the
`time.Sleep` durations performed (in milliseconds, in order), and the
number of `dialer.DialContext` attempts made. -/
structure DialBrokerResult where
  connected : Bool
  sleeps : List Nat
  attempts : Nat
  deriving Repr, DecidableEq

/-- The `for i := 0; i < dialBrokerRetries; i++` loop of `dialBroker`.
`ok i` tells whether the `i`-th `dialer.DialContext` attempt succeeds.
On failure it sleeps `wait` and doubles it, except on the final
iteration. -/
def dialLoop (ok : Nat → Bool) : Nat → Nat → Nat → List Nat → DialBrokerResult
  | 0, i, _, sleeps => ⟨false, sleeps, i⟩
  | remaining + 1, i, wait, sleeps =>
    if ok i then ⟨true, sleeps, i + 1⟩
    else if remaining = 0 then ⟨false, sleeps, i + 1⟩
    else dialLoop ok remaining (i + 1) (wait * dialBrokerBackoff) (sleeps ++ [wait])

/-- Function `dialBroker` from `cmd/kafka-websocket-proxy/main.go`. -/
def dialBroker (ok : Nat → Bool) : DialBrokerResult :=
  dialLoop ok dialBrokerRetries 0 dialBrokerWait []

/-- What `handleClient` does with the accepted TCP connection before
piping: on dial failure it closes the accepted connection and returns the
wrapped failure; on success it proceeds to the piping phase. The fields
record whether the accepted TCP connection was closed by the dial-failure
path and whether `handleClient` returned an error from that path. -/
structure HandleClientDialPhase where
  proceedsToPiping : Bool
  closedAcceptedConn : Bool
  returnsDialError : Bool
  deriving Repr, DecidableEq

/-- The dial phase of `handleClient` from `cmd/kafka-websocket-proxy/main.go`:
`ws, err := dialBroker(ctx, dialer); if err != nil { defer conn.Close();
return errors.Wrap(err, "dial broker failed") }`. -/
def handleClient (ok : Nat → Bool) : HandleClientDialPhase :=
  if (dialBroker ok).connected then ⟨true, false, false⟩
  else ⟨false, true, true⟩

/-- In the accept loop of `main`, the goroutine wrapping `handleClient`
logs the failure and returns `nil`, so a per-connection failure never
cancels the shared errgroup context (the listener and sibling connections
are unaffected). This models the value returned to the errgroup. -/
def acceptTaskResult (handleClientErr : Bool) : Option String :=
  if handleClientErr then none else none

end Proxy

namespace Shim

lemma headerVal_append (m rest : List Nat) (h : 4 ≤ m.length) :
    headerVal (m ++ rest) = headerVal m := by
  match m with
  | _ :: _ :: _ :: _ :: _ => rfl
  | [] | [_] | [_, _] | [_, _, _] => simp at h

/-- **C4.** Invariant of the read path: whenever the residual buffer is
non-empty, `Conn.Read` returns (with no error) the longest prefix of the
buffer that fits in the caller's buffer — `min sz |readBuff|` bytes —
advances the residual buffer past the copied bytes, and leaves the
transport untouched (`frames` unchanged, so no `ws.ReadMessage` call is
issued; one is issued only when the residual buffer is empty). -/
theorem read_buffered_invariant (c : Conn) (sz : Nat) (h : c.readBuff ≠ []) :
    c.Read sz = (.ok (c.readBuff.take sz), ⟨c.frames, c.readBuff.drop sz⟩)
    ∧ (c.Read sz).1.retCount = min sz c.readBuff.length := by
  have hlen : c.readBuff.length > 0 := List.length_pos.mpr h
  constructor
  · simp [Conn.Read, hlen]
  · simp [Conn.Read, hlen, ReadResult.retCount]

/-- Closed instance of `read_buffered_invariant` at a concrete connection
state with a 3-byte residual buffer and a 2-byte caller buffer. -/
theorem read_buffered_invariant_witness :
    (Conn.Read ⟨[⟨2, [9]⟩], [5, 6, 7]⟩ 2
        = (.ok [5, 6], ⟨[⟨2, [9]⟩], [7]⟩))
    ∧ (Conn.Read ⟨[⟨2, [9]⟩], [5, 6, 7]⟩ 2).1.retCount = min 2 3 := by
  have h := read_buffered_invariant ⟨[⟨2, [9]⟩], [5, 6, 7]⟩ 2 (by decide)
  exact ⟨h.1, h.2⟩

/-- **C5.** When the residual buffer is empty and the transport delivers a
frame whose tag is not `websocket.BinaryMessage`, `Conn.Read` returns
0 bytes with the typed `InvalidMessageTypeError` carrying the offending
tag; the frame's payload is neither delivered (`retBytes = []`) nor stored
in the residual buffer (which stays empty), and the frame is consumed. -/
theorem read_nonbinary_frame (c : Conn) (f : Frame) (rest : List Frame) (sz : Nat)
    (hb : c.readBuff = []) (hf : c.frames = f :: rest)
    (ht : f.msgType ≠ binaryMessage) :
    c.Read sz = (.typeErr f.msgType, ⟨rest, []⟩)
    ∧ (ReadResult.typeErr f.msgType).retCount = 0
    ∧ (ReadResult.typeErr f.msgType).retBytes = [] := by
  refine ⟨?_, rfl, rfl⟩
  obtain ⟨frames, readBuff⟩ := c
  simp only at hb hf
  subst hb hf
  simp [Conn.Read, ht]

/-- Closed instance of `read_nonbinary_frame`: a text frame (tag 1,
payload "hi") yields the typed error, 0 bytes, and nothing buffered. -/
theorem read_nonbinary_frame_witness :
    Conn.Read ⟨[⟨1, [104, 105]⟩], []⟩ 150 = (.typeErr 1, ⟨[], []⟩)
    ∧ (ReadResult.typeErr 1).retCount = 0 := by
  have h := read_nonbinary_frame ⟨[⟨1, [104, 105]⟩], []⟩ ⟨1, [104, 105]⟩ [] 150
    rfl rfl (by decide)
  exact ⟨h.1, h.2.1⟩

/-- **C6** (code evaluated at the failing input). The helper
`parseInt32`, despite its "Assumes big endian byte order!" comment and
despite being applied to the big-endian header bytes `b[0] … b[3]`,
assembles its *first* argument into the least-significant byte: on the
header `[0,0,0,1]` (big-endian value 1, the value `binary.BigEndian.Uint32`
produces and the value the write path of `pkg/shim/shim.go` uses) it
returns `16777216 = 1 <<< 24` instead. -/
theorem parseInt32_not_big_endian :
    parseInt32 0 0 0 1 = 16777216
    ∧ toInt32 (beUint32 0 0 0 1) = 1
    ∧ parseInt32 0 0 0 1 ≠ toInt32 (beUint32 0 0 0 1) := by
  refine ⟨by decide, by decide, by decide⟩

/-- **C10.** `Dialer.Dial` and `Dialer.DialContext` coincide for every
context: `Dial` delegates to `DialContext` with `context.Background()`,
and `DialContext` never inspects its context argument (the WebSocket
handshake goes through the non-contextual `websocket.DefaultDialer`), so
the cancellation token has no effect on the dial's outcome. -/
theorem dial_eq_dialContext (handshake : String → Bool) (tls : Bool) (ctx : Ctx)
    (network addr : String) :
    Dialer.DialContext handshake tls ctx network addr
      = Dialer.Dial handshake tls network addr := rfl

lemma writeLoop_cons (sendOk : Nat → Bool) (fuel : Nat) (m rest : List Nat)
    (w : Nat) (sends : List Frame) (hm : IsCompleteMsg m)
    (hok : sendOk sends.length = true) :
    writeLoop sendOk (fuel + 1) (m ++ rest) w sends
      = writeLoop sendOk fuel rest (w + m.length) (sends ++ [⟨binaryMessage, m⟩]) := by
  obtain ⟨h4, hsize⟩ := hm
  have hhv : headerVal (m ++ rest) = headerVal m := headerVal_append m rest h4
  have hlen : (m ++ rest).length = m.length + rest.length := by simp
  have ht : ((int32Size : Int) + ((m.length : Int) - 4)).toNat = m.length := by
    simp only [int32Size]; push_cast; omega
  rw [writeLoop, if_neg (by simp only [hlen]; omega),
    if_neg (by simp only [hlen, int32Size]; omega), hhv, hsize,
    if_neg (by simp only [hlen, int32Size]; push_cast; omega),
    if_neg (by simp only [int32Size]; push_cast; omega), ht]
  simp [List.take_left, List.drop_left, hok]

lemma writeLoop_msgs (sendOk : Nat → Bool) (msgs : List (List Nat)) :
    ∀ (fuel w : Nat) (sends : List Frame) (frag : List Nat),
    (∀ m ∈ msgs, IsCompleteMsg m) → (∀ k, sendOk k = true) →
    msgs.length ≤ fuel →
    writeLoop sendOk (fuel + 1) (msgs.flatten ++ frag) w sends
      = writeLoop sendOk (fuel - msgs.length + 1) frag (w + msgs.flatten.length)
          (sends ++ msgs.map fun m => ⟨binaryMessage, m⟩) := by
  induction msgs with
  | nil => intro fuel w sends frag _ _ _; simp
  | cons m ms ih =>
    intro fuel w sends frag hall hok hfuel
    have hm : IsCompleteMsg m := hall m (by simp)
    have hfuel' : ms.length + 1 ≤ fuel := by simpa using hfuel
    obtain ⟨fuel', rfl⟩ : ∃ fuel', fuel = fuel' + 1 := ⟨fuel - 1, by omega⟩
    have step := writeLoop_cons sendOk (fuel' + 1) m (ms.flatten ++ frag) w sends hm
      (hok _)
    rw [List.flatten_cons, List.append_assoc, step,
      ih fuel' (w + m.length) (sends ++ [(⟨binaryMessage, m⟩ : Frame)]) frag
        (fun x hx => hall x (by simp [hx])) hok (by omega)]
    congr 1
    · simp only [List.length_cons]; omega
    · simp; omega
    · simp

lemma msgs_length_le_flatten (msgs : List (List Nat))
    (hall : ∀ m ∈ msgs, IsCompleteMsg m) :
    msgs.length ≤ msgs.flatten.length := by
  induction msgs with
  | nil => simp
  | cons m ms ih =>
    have hm := (hall m (by simp)).1
    have := ih (fun x hx => hall x (by simp [hx]))
    simp only [List.length_cons, List.flatten_cons, List.length_append]
    omega

/-- **C3.** Writing three concatenated complete ProtocolMessages in one
strict-policy `Conn.Write` call (all transport sends succeeding) sends
exactly three WebSocket messages, each tagged binary, in original order,
each carrying one whole ProtocolMessage byte-for-byte including its 4-byte
header, and returns `written` equal to the sum of the three lengths. -/
theorem write_three_messages (sendOk : Nat → Bool) (m1 m2 m3 : List Nat)
    (h1 : IsCompleteMsg m1) (h2 : IsCompleteMsg m2) (h3 : IsCompleteMsg m3)
    (hok : ∀ k, sendOk k = true) :
    Conn.Write sendOk (m1 ++ m2 ++ m3)
      = ⟨m1.length + m2.length + m3.length, .ok,
          [⟨binaryMessage, m1⟩, ⟨binaryMessage, m2⟩, ⟨binaryMessage, m3⟩]⟩ := by
  have hall : ∀ m ∈ [m1, m2, m3], IsCompleteMsg m := by
    intro m hm
    simp only [List.mem_cons, List.not_mem_nil, or_false] at hm
    rcases hm with rfl | rfl | rfl <;> assumption
  have hflat : ([m1, m2, m3] : List (List Nat)).flatten = m1 ++ m2 ++ m3 := by simp
  have hlen3 : ([m1, m2, m3] : List (List Nat)).length ≤ (m1 ++ m2 ++ m3).length := by
    have := msgs_length_le_flatten [m1, m2, m3] hall
    rwa [hflat] at this
  have := writeLoop_msgs sendOk [m1, m2, m3] (m1 ++ m2 ++ m3).length 0 [] []
    hall hok hlen3
  rw [hflat, List.append_nil] at this
  rw [Conn.Write, this, writeLoop]
  simp [hflat]
  omega

/-- The trailing-fragment cases of the strict `Conn.Write` loop: a
leftover shorter than the 4-byte header, or with fewer payload bytes than
its header declares, stops the loop with a `PartialWriteError`. -/
lemma writeLoop_fragment (sendOk : Nat → Bool) (fuel w : Nat)
    (sends : List Frame) (frag : List Nat) (hne : frag ≠ []) :
    (frag.length < 4 →
      writeLoop sendOk (fuel + 1) frag w sends
        = ⟨w, .PartialWriteErr 4 frag.length, sends⟩)
    ∧ (4 ≤ frag.length → (frag.length : Int) - 4 < toInt32 (headerVal frag) →
      writeLoop sendOk (fuel + 1) frag w sends
        = ⟨w, .PartialWriteErr (toInt32 (headerVal frag)) ((frag.length : Int) - 4),
            sends⟩) := by
  have hpos : 0 < frag.length := List.length_pos.mpr hne
  constructor
  · intro hshort
    rw [writeLoop, if_neg (by omega), if_pos (by simpa [int32Size] using hshort)]
    simp [int32Size]
  · intro hge hdecl
    rw [writeLoop, if_neg (by omega), if_neg (by simp only [int32Size]; omega)]
    simp only [int32Size]
    rw [if_pos (by push_cast; omega)]
    norm_num

/-- **C1, counterexample.** The claim says a strict-policy `Conn.Write`
on input ending in a short fragment "accepts 0 bytes … including when the
fragment follows one or more complete messages in the same call". On
`[0,0,0,0] ++ [0]` — one complete message (declared length 0) followed by
a 1-byte fragment — the call returns `written = 4`, not 0, alongside the
`PartialWriteError`. -/
theorem write_fragment_after_message_cex :
    Conn.Write (fun _ => true) [0, 0, 0, 0, 0]
      = ⟨4, .PartialWriteErr 4 1, [⟨binaryMessage, [0, 0, 0, 0]⟩]⟩
    ∧ (Conn.Write (fun _ => true) [0, 0, 0, 0, 0]).written ≠ 0 := by
  refine ⟨by decide, by decide⟩

/-- **C1, amended.** For every strict-policy `Conn.Write` input formed of
complete ProtocolMessages followed by a non-empty leftover fragment
shorter than a full message (all transport sends succeeding), the call
fails with a `PartialWriteError` whose expected/actual fields carry the
byte counts needed vs. available (`4` vs. the fragment length when even
the header is short; the declared payload length vs. the available
payload bytes otherwise), and the accepted count equals the total length
of the complete messages preceding the fragment — `0` exactly when the
fragment is the whole input, not in general. -/
theorem write_fragment_rejected (sendOk : Nat → Bool) (msgs : List (List Nat))
    (frag : List Nat) (hall : ∀ m ∈ msgs, IsCompleteMsg m)
    (hok : ∀ k, sendOk k = true) (hne : frag ≠ []) :
    (frag.length < 4 →
      Conn.Write sendOk (msgs.flatten ++ frag)
        = ⟨msgs.flatten.length, .PartialWriteErr 4 frag.length,
            msgs.map fun m => ⟨binaryMessage, m⟩⟩)
    ∧ (4 ≤ frag.length → (frag.length : Int) - 4 < toInt32 (headerVal frag) →
      Conn.Write sendOk (msgs.flatten ++ frag)
        = ⟨msgs.flatten.length,
            .PartialWriteErr (toInt32 (headerVal frag)) ((frag.length : Int) - 4),
            msgs.map fun m => ⟨binaryMessage, m⟩⟩) := by
  have hmle : msgs.length ≤ msgs.flatten.length := msgs_length_le_flatten msgs hall
  have hfuel : msgs.length ≤ (msgs.flatten ++ frag).length := by
    simp only [List.length_append]; omega
  have hmain := writeLoop_msgs sendOk msgs (msgs.flatten ++ frag).length 0 [] frag
    hall hok hfuel
  have hfrag := writeLoop_fragment sendOk
    ((msgs.flatten ++ frag).length - msgs.length) msgs.flatten.length
    (msgs.map fun m => ⟨binaryMessage, m⟩) frag hne
  constructor
  · intro hshort
    rw [Conn.Write, hmain]
    simpa using hfrag.1 hshort
  · intro hge hdecl
    rw [Conn.Write, hmain]
    simpa using hfrag.2 hge hdecl

/-- Closed instance of `write_fragment_rejected`: one complete message
(declared length 2) followed by the fragment `[0,0,0,5,1]` whose header
declares 5 payload bytes with only 1 available; the call accepts the 6
bytes of the complete message and fails with `PartialWriteError
{expected: 5, actual: 1}`. -/
theorem write_fragment_rejected_witness :
    Conn.Write (fun _ => true) ([0, 0, 0, 2, 7, 8] ++ [0, 0, 0, 5, 1])
      = ⟨6, .PartialWriteErr 5 1, [⟨binaryMessage, [0, 0, 0, 2, 7, 8]⟩]⟩ := by
  have h := (write_fragment_rejected (fun _ => true) [[0, 0, 0, 2, 7, 8]]
    [0, 0, 0, 5, 1] (by decide) (fun _ => rfl) (by decide)).2 (by decide) (by decide)
  simpa using h

/-- Predicate mirroring the write loop's traversal of its input: every
4-byte length header the loop examines (at the head of the remaining
input after peeling each message) decodes to a non-negative `int32`. -/
def headersNonNeg : Nat → List Nat → Bool
  | 0, _ => true
  | fuel + 1, b =>
    if b.length < int32Size then true
    else
      let size := toInt32 (headerVal b)
      if size < 0 then false
      else if (b.length : Int) - (int32Size : Int) < size then true
      else headersNonNeg fuel (b.drop ((int32Size : Int) + size).toNat)

lemma writeLoop_no_panic (sendOk : Nat → Bool) :
    ∀ (fuel : Nat) (b : List Nat) (w : Nat) (sends : List Frame),
    headersNonNeg fuel b = true →
    (writeLoop sendOk fuel b w sends).outcome ≠ WriteOutcome.panicked := by
  intro fuel
  induction fuel with
  | zero =>
    intro b w sends _
    simp [writeLoop]
  | succ fuel ih =>
    intro b w sends hh
    rw [headersNonNeg] at hh
    by_cases hb0 : b.length = 0
    · simp [writeLoop, hb0]
    by_cases hshort : b.length < int32Size
    · simp [writeLoop, hb0, hshort]
    rw [if_neg hshort] at hh
    by_cases hneg : toInt32 (headerVal b) < 0
    · rw [if_pos hneg] at hh
      simp at hh
    rw [if_neg hneg] at hh
    by_cases hps : (b.length : Int) - (int32Size : Int) < toInt32 (headerVal b)
    · simp [writeLoop, hb0, hshort, hps]
    rw [if_neg hps] at hh
    have hts : ¬ ((int32Size : Int) + toInt32 (headerVal b) < 0) := by
      have hz : (0 : Int) ≤ (int32Size : Int) := Int.natCast_nonneg _
      omega
    by_cases hsnd : sendOk sends.length = true
    · simp only [writeLoop, hb0, hshort, hps, hts, hsnd, if_false, if_true,
        ite_false, ite_true]
      exact ih _ _ _ hh
    · simp [writeLoop, hb0, hshort, hps, hts, hsnd]

/-- **C9.** The strict `Conn.Write` trusts length headers without
validating them. First conjunct: when every header examined by the loop
decodes to a non-negative `int32`, the run never reaches an out-of-bounds
slice (`panicked` is unreachable) — the non-negativity is an assumed
precondition, not something the code checks. Second conjunct: on an input
whose first header decodes below `-4`, the computed slice bound
`totalSize = 4 + size` is negative and the very first iteration hits the
out-of-bounds slice `b[:totalSize]`. -/
theorem write_header_trust :
    (∀ (b : List Nat) (sendOk : Nat → Bool),
      headersNonNeg (b.length + 1) b = true →
      (Conn.Write sendOk b).outcome ≠ WriteOutcome.panicked)
    ∧ (∀ (b0 b1 b2 b3 : Nat) (rest : List Nat) (sendOk : Nat → Bool),
      toInt32 (beUint32 b0 b1 b2 b3) < -4 →
      (int32Size : Int) + toInt32 (beUint32 b0 b1 b2 b3) < 0
        ∧ Conn.Write sendOk (b0 :: b1 :: b2 :: b3 :: rest)
            = ⟨0, WriteOutcome.panicked, []⟩) := by
  constructor
  · intro b sendOk hh
    exact writeLoop_no_panic sendOk (b.length + 1) b 0 [] hh
  · intro b0 b1 b2 b3 rest sendOk hlt
    have hz : (int32Size : Int) = 4 := by norm_num [int32Size]
    have hts : (int32Size : Int) + toInt32 (beUint32 b0 b1 b2 b3) < 0 := by omega
    refine ⟨hts, ?_⟩
    have hhv : headerVal (b0 :: b1 :: b2 :: b3 :: rest) = beUint32 b0 b1 b2 b3 := rfl
    have hlen : (b0 :: b1 :: b2 :: b3 :: rest).length = 4 + rest.length := by
      simp; omega
    rw [Conn.Write, writeLoop, if_neg (by omega), if_neg (by
      simp only [hlen, int32Size]; omega), hhv,
      if_neg (by simp only [hlen, int32Size]; push_cast; omega), if_pos hts]

/-- Closed instance of `write_header_trust`: the well-headed input
`[0,0,0,1,9]` never panics, while the header `[255,255,255,250]`
(decoding to `-6 < -4`) yields a negative slice bound and the `panicked`
outcome immediately. -/
theorem write_header_trust_witness :
    (Conn.Write (fun _ => true) [0, 0, 0, 1, 9]).outcome ≠ WriteOutcome.panicked
    ∧ ((int32Size : Int) + toInt32 (beUint32 255 255 255 250) < 0
        ∧ Conn.Write (fun _ => true) [255, 255, 255, 250]
            = ⟨0, WriteOutcome.panicked, []⟩) := by
  refine ⟨write_header_trust.1 [0, 0, 0, 1, 9] (fun _ => true) (by decide),
    write_header_trust.2 255 255 255 250 [] (fun _ => true) (by decide)⟩

lemma read_step_pending (c : Conn) (sz : Nat)
    (hbin : ∀ f ∈ c.frames, f.msgType = binaryMessage) :
    (c.Read sz).1.retBytes ++ (c.Read sz).2.pending = c.pending
    ∧ ∀ f ∈ (c.Read sz).2.frames, f.msgType = binaryMessage := by
  obtain ⟨frames, buff⟩ := c
  by_cases hb : buff.length > 0
  · constructor
    · simp only [Conn.Read, hb, if_pos, ReadResult.retBytes, Conn.pending]
      rw [← List.append_assoc, List.take_append_drop]
    · simpa [Conn.Read, hb] using hbin
  · have hbe : buff = [] := by
      cases buff with
      | nil => rfl
      | cons x xs => simp at hb
    subst hbe
    match frames with
    | [] =>
      exact ⟨by simp [Conn.Read, ReadResult.retBytes], by simp [Conn.Read] at hbin ⊢⟩
    | f :: rest =>
      have hf : f.msgType = binaryMessage := hbin f (by simp)
      have hrest : ∀ g ∈ rest, g.msgType = binaryMessage := by
        intro g hg
        exact hbin g (by simp [hg])
      constructor
      · simp only [Conn.Read, hf, List.length_nil, gt_iff_lt, Nat.lt_irrefl,
          if_false, ne_eq, not_true_eq_false, ite_false, ite_true,
          ReadResult.retBytes, Conn.pending]
        simp [← List.append_assoc, List.take_append_drop, hf]
      · intro g hg
        apply hrest
        simpa [Conn.Read, hf] using hg

lemma readRun_pending (szs : List Nat) :
    ∀ (c : Conn), (∀ f ∈ c.frames, f.msgType = binaryMessage) →
    (readRun c szs).1 ++ (readRun c szs).2.pending = c.pending := by
  induction szs with
  | nil =>
    intro c _
    simp [readRun]
  | cons sz szs ih =>
    intro c hbin
    obtain ⟨hstep, hbin'⟩ := read_step_pending c sz hbin
    calc (readRun c (sz :: szs)).1 ++ (readRun c (sz :: szs)).2.pending
        = (c.Read sz).1.retBytes
            ++ ((readRun (c.Read sz).2 szs).1
              ++ (readRun (c.Read sz).2 szs).2.pending) := by
          simp [readRun, List.append_assoc]
      _ = (c.Read sz).1.retBytes ++ (c.Read sz).2.pending := by
          rw [ih (c.Read sz).2 hbin']
      _ = c.pending := hstep

/-- **C2.** For every sequence of binary transport frames and every
schedule of caller-buffer sizes, the bytes delivered by sequential
`Conn.Read` calls, followed by the bytes still pending (residual buffer
plus undelivered frames), equal exactly the concatenation of the frames'
payloads — no byte dropped, duplicated or reordered; in particular any
two schedules that drain the connection (e.g. 104 one-byte reads vs. one
150-byte read per frame) deliver the same bytes: the frames'
concatenation. -/
theorem read_framing (frames : List (List Nat)) (szs : List Nat) :
    (readRun ⟨frames.map fun p => ⟨binaryMessage, p⟩, []⟩ szs).1
        ++ (readRun ⟨frames.map fun p => ⟨binaryMessage, p⟩, []⟩ szs).2.pending
      = frames.flatten
    ∧ ((readRun ⟨frames.map fun p => ⟨binaryMessage, p⟩, []⟩ szs).2.pending = [] →
      (readRun ⟨frames.map fun p => ⟨binaryMessage, p⟩, []⟩ szs).1
        = frames.flatten) := by
  have hbin : ∀ f ∈ (frames.map fun p => (⟨binaryMessage, p⟩ : Frame)),
      f.msgType = binaryMessage := by
    intro f hf
    simp only [List.mem_map] at hf
    obtain ⟨p, _, rfl⟩ := hf
    rfl
  have h := readRun_pending szs ⟨frames.map fun p => ⟨binaryMessage, p⟩, []⟩ hbin
  have hpend : (Conn.pending ⟨frames.map fun p => ⟨binaryMessage, p⟩, []⟩)
      = frames.flatten := by
    simp only [Conn.pending, List.map_map, List.nil_append]
    have hcomp : (Frame.payload ∘ fun p => (⟨binaryMessage, p⟩ : Frame)) = id := rfl
    rw [hcomp, List.map_id]
  rw [hpend] at h
  refine ⟨h, fun hnil => ?_⟩
  rw [← h, hnil, List.append_nil]

set_option maxRecDepth 10000 in
/-- Closed instance of `read_framing` at the spec's example: three binary
frames of sizes 104, 79, 129 (`MakeMsg` with declared lengths 100, 75,
125), drained once by 104 one-byte reads followed by two 150-byte reads,
and once by three 150-byte reads; both schedules deliver exactly the
concatenated frame bytes. -/
theorem read_framing_witness :
    (readRun ⟨[MakeMsg 100 97, MakeMsg 75 98, MakeMsg 125 99].map
        fun p => ⟨binaryMessage, p⟩, []⟩ (List.replicate 104 1 ++ [150, 150])).1
      = [MakeMsg 100 97, MakeMsg 75 98, MakeMsg 125 99].flatten
    ∧ (readRun ⟨[MakeMsg 100 97, MakeMsg 75 98, MakeMsg 125 99].map
        fun p => ⟨binaryMessage, p⟩, []⟩ [150, 150, 150]).1
      = [MakeMsg 100 97, MakeMsg 75 98, MakeMsg 125 99].flatten := by
  refine ⟨(read_framing [MakeMsg 100 97, MakeMsg 75 98, MakeMsg 125 99]
      (List.replicate 104 1 ++ [150, 150])).2 (by decide),
    (read_framing [MakeMsg 100 97, MakeMsg 75 98, MakeMsg 125 99]
      [150, 150, 150]).2 (by decide)⟩

set_option maxRecDepth 10000 in
/-- Closed instance of `write_three_messages` at the three test messages
`MakeMsg 100 'a'`, `MakeMsg 75 'b'`, `MakeMsg 125 'c'` (sizes 104, 79,
129): three binary frames, accepted count 312. -/
theorem write_three_messages_witness :
    Conn.Write (fun _ => true) (MakeMsg 100 97 ++ MakeMsg 75 98 ++ MakeMsg 125 99)
      = ⟨312, .ok,
          [⟨binaryMessage, MakeMsg 100 97⟩, ⟨binaryMessage, MakeMsg 75 98⟩,
            ⟨binaryMessage, MakeMsg 125 99⟩]⟩ := by
  have h := write_three_messages (fun _ => true) (MakeMsg 100 97) (MakeMsg 75 98)
    (MakeMsg 125 99) (by decide) (by decide) (by decide) (fun _ => rfl)
  simpa using h

lemma accLoop_cons (sendOk : Nat → Bool) (lenB fuel : Nat) (m rest : List Nat)
    (w : Int) (sends : List Frame) (hm : IsCompleteMsg m)
    (hok : sendOk sends.length = true) :
    accWriteLoop sendOk lenB (fuel + 1) (m ++ rest) w sends
      = accWriteLoop sendOk lenB fuel rest (w + (m.length : Int))
          (sends ++ [⟨binaryMessage, m⟩]) := by
  obtain ⟨h4, hsize⟩ := hm
  have hhv : headerVal (m ++ rest) = headerVal m := headerVal_append m rest h4
  have hlen : (m ++ rest).length = m.length + rest.length := by simp
  have ht : ((int32Size : Int) + ((m.length : Int) - 4)).toNat = m.length := by
    simp only [int32Size]; push_cast; omega
  have htz : (((int32Size : Int) + ((m.length : Int) - 4)).toNat : Int)
      = (m.length : Int) := by rw [ht]
  rw [accWriteLoop, if_neg (by simp only [hlen]; omega),
    if_neg (by simp only [hlen, int32Size]; omega), hhv, hsize,
    if_neg (by simp only [hlen, int32Size]; push_cast; omega),
    if_neg (by simp only [int32Size]; push_cast; omega), ht]
  simp [List.take_left, List.drop_left, hok, htz]

lemma accLoop_msgs (sendOk : Nat → Bool) (lenB : Nat) (msgs : List (List Nat)) :
    ∀ (fuel : Nat) (w : Int) (sends : List Frame) (frag : List Nat),
    (∀ m ∈ msgs, IsCompleteMsg m) →
    (∀ j, j < msgs.length → sendOk (sends.length + j) = true) →
    msgs.length ≤ fuel →
    accWriteLoop sendOk lenB (fuel + 1) (msgs.flatten ++ frag) w sends
      = accWriteLoop sendOk lenB (fuel - msgs.length + 1) frag
          (w + (msgs.flatten.length : Int))
          (sends ++ msgs.map fun m => ⟨binaryMessage, m⟩) := by
  induction msgs with
  | nil =>
    intro fuel w sends frag _ _ _
    simp
  | cons m ms ih =>
    intro fuel w sends frag hall hok hfuel
    have hm : IsCompleteMsg m := hall m (by simp)
    have hfuel' : ms.length + 1 ≤ fuel := by simpa using hfuel
    obtain ⟨fuel', rfl⟩ : ∃ fuel', fuel = fuel' + 1 := ⟨fuel - 1, by omega⟩
    have step := accLoop_cons sendOk lenB (fuel' + 1) m (ms.flatten ++ frag) w sends
      hm (by simpa using hok 0 (by simp))
    have hok' : ∀ j, j < ms.length →
        sendOk ((sends ++ [(⟨binaryMessage, m⟩ : Frame)]).length + j) = true := by
      intro j hj
      have := hok (j + 1) (by simp; omega)
      simpa [Nat.add_assoc, Nat.add_comm 1 j] using this
    rw [List.flatten_cons, List.append_assoc, step,
      ih fuel' (w + (m.length : Int)) (sends ++ [(⟨binaryMessage, m⟩ : Frame)]) frag
        (fun x hx => hall x (by simp [hx])) hok' (by omega)]
    congr 1
    · simp only [List.length_cons]; omega
    · simp only [List.length_append]; push_cast; ring
    · simp

/-- The trailing-fragment cases of the accumulating write loop: when
fewer bytes than a full message remain buffered, the call returns
`len(b)` with no error and the fragment stays in the pending buffer. -/
lemma accLoop_fragment (sendOk : Nat → Bool) (lenB fuel : Nat) (w : Int)
    (sends : List Frame) (frag : List Nat) (hne : frag ≠ []) :
    (frag.length < 4 →
      accWriteLoop sendOk lenB (fuel + 1) frag w sends
        = ⟨(lenB : Int), .ok, sends, frag⟩)
    ∧ ((frag.length : Int) - 4 < toInt32 (headerVal frag) →
      accWriteLoop sendOk lenB (fuel + 1) frag w sends
        = ⟨(lenB : Int), .ok, sends, frag⟩) := by
  have hpos : 0 < frag.length := List.length_pos.mpr hne
  constructor
  · intro hshort
    rw [accWriteLoop, if_neg (by omega), if_pos (by simpa [int32Size] using hshort)]
  · intro hdecl
    by_cases hshort : frag.length < int32Size
    · rw [accWriteLoop, if_neg (by omega), if_pos hshort]
    · rw [accWriteLoop, if_neg (by omega), if_neg hshort,
        if_pos (by simp only [int32Size]; push_cast; omega)]

/-- The failing-send step of the accumulating write loop: a complete
message at the buffer head whose `ws.WriteMessage` fails makes the call
return `max(written, 0)` with the wrapped error, the failing frame
recorded as attempted, and the pending buffer unchanged. -/
lemma accLoop_send_fail (sendOk : Nat → Bool) (lenB fuel : Nat)
    (m tail : List Nat) (w : Int) (sends : List Frame) (hm : IsCompleteMsg m)
    (hfail : sendOk sends.length = false) :
    accWriteLoop sendOk lenB (fuel + 1) (m ++ tail) w sends
      = ⟨max w 0, .sendFailed, sends ++ [⟨binaryMessage, m⟩], m ++ tail⟩ := by
  obtain ⟨h4, hsize⟩ := hm
  have hhv : headerVal (m ++ tail) = headerVal m := headerVal_append m tail h4
  have hlen : (m ++ tail).length = m.length + tail.length := by simp
  have ht : ((int32Size : Int) + ((m.length : Int) - 4)).toNat = m.length := by
    simp only [int32Size]; push_cast; omega
  rw [accWriteLoop, if_neg (by simp only [hlen]; omega),
    if_neg (by simp only [hlen, int32Size]; omega), hhv, hsize,
    if_neg (by simp only [hlen, int32Size]; push_cast; omega),
    if_neg (by simp only [int32Size]; push_cast; omega), ht]
  simp [List.take_left, hfail]

/-- **C7.** The accumulating-policy `Conn.Write` contract. First
conjunct: when the pending buffer plus the new input splits into complete
messages followed by a (possibly empty) fragment shorter than a full
message, and all transport sends succeed, the call returns exactly
`len(b)`, sends one binary frame per complete message in order, and
retains the fragment's bytes in the pending buffer (never discarding
them). Second conjunct: when the send of the message at index
`|msgsA|` fails (after the messages of `msgsA` were flushed), the call
returns the wrapped transport error together with
`max(|flushed| − |old pending|, 0)` — the number of this call's bytes
flushed so far, floored at zero — and the unflushed bytes stay in the
pending buffer. -/
theorem write_acc_contract :
    (∀ (sendOk : Nat → Bool) (wBuf b : List Nat) (msgs : List (List Nat))
        (frag : List Nat),
      (∀ m ∈ msgs, IsCompleteMsg m) →
      (frag = [] ∨ frag.length < 4
        ∨ (frag.length : Int) - 4 < toInt32 (headerVal frag)) →
      wBuf ++ b = msgs.flatten ++ frag →
      (∀ k, sendOk k = true) →
      Conn.WriteAcc sendOk wBuf b
        = ⟨(b.length : Int), .ok, msgs.map fun m => ⟨binaryMessage, m⟩, frag⟩)
    ∧ (∀ (sendOk : Nat → Bool) (wBuf b : List Nat) (msgsA : List (List Nat))
        (m tail : List Nat),
      (∀ x ∈ msgsA, IsCompleteMsg x) → IsCompleteMsg m →
      (∀ j, j < msgsA.length → sendOk j = true) →
      sendOk msgsA.length = false →
      wBuf ++ b = msgsA.flatten ++ (m ++ tail) →
      Conn.WriteAcc sendOk wBuf b
        = ⟨max ((msgsA.flatten.length : Int) - (wBuf.length : Int)) 0,
            .sendFailed, (msgsA ++ [m]).map fun x => ⟨binaryMessage, x⟩,
            m ++ tail⟩) := by
  constructor
  · intro sendOk wBuf b msgs frag hall hfrag hsplit hok
    have hmle : msgs.length ≤ msgs.flatten.length := msgs_length_le_flatten msgs hall
    have hlen : (wBuf ++ b).length = msgs.flatten.length + frag.length := by
      rw [hsplit]; simp
    have hmain := accLoop_msgs sendOk b.length msgs (msgs.flatten ++ frag).length
      (-(wBuf.length : Int)) [] frag hall (fun j _ => hok _)
      (by simp only [List.length_append]; omega)
    have hwlen : wBuf.length + b.length = msgs.flatten.length + frag.length := by
      simpa using hlen
    unfold Conn.WriteAcc
    rw [hsplit, hmain]
    by_cases hfe : frag = []
    · subst hfe
      rw [accWriteLoop, if_pos (by simp)]
      simp only [List.length_nil, Nat.add_zero] at hwlen
      have hval : -(wBuf.length : Int) + (msgs.flatten.length : Int)
          = (b.length : Int) := by omega
      rw [hval]
      have hmax : max ((b.length : Int)) 0 = (b.length : Int) :=
        max_eq_left (by positivity)
      rw [hmax]
      simp
    · rcases hfrag with rfl | hshort | hdecl
      · exact absurd rfl hfe
      · rw [(accLoop_fragment sendOk b.length _ _ _ frag hfe).1 hshort]
        simp
      · rw [(accLoop_fragment sendOk b.length _ _ _ frag hfe).2 hdecl]
        simp
  · intro sendOk wBuf b msgsA m tail hall hm hok hfail hsplit
    have hmle : msgsA.length ≤ msgsA.flatten.length :=
      msgs_length_le_flatten msgsA hall
    have hlen : (wBuf ++ b).length
        = msgsA.flatten.length + (m ++ tail).length := by
      rw [hsplit]; simp
    have hmain := accLoop_msgs sendOk b.length msgsA
      (msgsA.flatten ++ (m ++ tail)).length (-(wBuf.length : Int)) [] (m ++ tail)
      hall (fun j hj => by simpa using hok j hj)
      (by simp only [List.length_append]; omega)
    unfold Conn.WriteAcc
    rw [hsplit, hmain]
    have hfail' : sendOk (([] ++ msgsA.map fun x =>
        (⟨binaryMessage, x⟩ : Frame)).length) = false := by
      simpa using hfail
    rw [accLoop_send_fail sendOk b.length _ m tail _ _ hm hfail']
    simp [neg_add_eq_sub]

/-- Closed instance of `write_acc_contract`. Success: pending `[0,0,0,2,7]`
plus input `[8,0,0,0,9]` flushes the completed 6-byte message and retains
the fragment `[0,0,0,9]`, returning 5 = `len(b)`. Failure: pending
`[0,0,0,2,7]` plus input `[8,0,0,0,0]` with the second send failing
returns `max(6 − 5, 0) = 1` and keeps `[0,0,0,0]` pending. -/
theorem write_acc_contract_witness :
    Conn.WriteAcc (fun _ => true) [0, 0, 0, 2, 7] [8, 0, 0, 0, 9]
      = ⟨5, .ok, [⟨binaryMessage, [0, 0, 0, 2, 7, 8]⟩], [0, 0, 0, 9]⟩
    ∧ Conn.WriteAcc (fun k => k == 0) [0, 0, 0, 2, 7] [8, 0, 0, 0, 0]
      = ⟨1, .sendFailed,
          [⟨binaryMessage, [0, 0, 0, 2, 7, 8]⟩, ⟨binaryMessage, [0, 0, 0, 0]⟩],
          [0, 0, 0, 0]⟩ := by
  constructor
  · have h := write_acc_contract.1 (fun _ => true) [0, 0, 0, 2, 7] [8, 0, 0, 0, 9]
      [[0, 0, 0, 2, 7, 8]] [0, 0, 0, 9] (by decide)
      (by right; right; decide) (by decide) (fun _ => rfl)
    simpa using h
  · have h := write_acc_contract.2 (fun k => k == 0) [0, 0, 0, 2, 7] [8, 0, 0, 0, 0]
      [[0, 0, 0, 2, 7, 8]] [0, 0, 0, 0] [] (by decide) (by decide)
      (by decide) (by decide) (by decide)
    simpa using h

end Shim

namespace Proxy

lemma dialLoop_attempts_le (ok : Nat → Bool) :
    ∀ (remaining i wait : Nat) (sleeps : List Nat),
    (dialLoop ok remaining i wait sleeps).attempts ≤ i + remaining := by
  intro remaining
  induction remaining with
  | zero =>
    intro i wait sleeps
    simp [dialLoop]
  | succ r ih =>
    intro i wait sleeps
    rw [dialLoop]
    by_cases h : ok i = true
    · simp [h]
    · rw [if_neg (by simpa using h)]
      by_cases hr : r = 0
      · simp [hr]
      · rw [if_neg hr]
        have := ih (i + 1) (wait * dialBrokerBackoff) (sleeps ++ [wait])
        omega

/-- **C8.** Dial/backoff behaviour of the forwarding service. First
conjunct: `dialBroker` makes at most 5 `DialContext` attempts, for every
dial oracle. Second conjunct: when the dialer fails the first 4 attempts
and succeeds on the 5th, exactly 4 sleeps of 200/400/800/1600 ms occur
(doubling from the 200 ms base, none after the final attempt), the
connection is returned, and `handleClient` proceeds to piping. Third
conjunct: when all 5 attempts fail, no connection is returned (again with
only the 4 intermediate sleeps), `handleClient` closes the accepted TCP
connection and returns the dial failure, and the accept-loop task still
reports no error to the shared errgroup — the listener and sibling
connections are unaffected. -/
theorem dial_broker_backoff :
    (∀ ok : Nat → Bool, (dialBroker ok).attempts ≤ dialBrokerRetries)
    ∧ (∀ ok : Nat → Bool, (∀ i, i < 4 → ok i = false) → ok 4 = true →
        dialBroker ok = ⟨true, [200, 400, 800, 1600], 5⟩
        ∧ (handleClient ok).proceedsToPiping = true)
    ∧ (∀ ok : Nat → Bool, (∀ i, i < 5 → ok i = false) →
        dialBroker ok = ⟨false, [200, 400, 800, 1600], 5⟩
        ∧ handleClient ok = ⟨false, true, true⟩
        ∧ acceptTaskResult true = none) := by
  refine ⟨?_, ?_, ?_⟩
  · intro ok
    have := dialLoop_attempts_le ok dialBrokerRetries 0 dialBrokerWait []
    simpa [dialBroker] using this
  · intro ok hfail hok5
    have h0 := hfail 0 (by norm_num)
    have h1 := hfail 1 (by norm_num)
    have h2 := hfail 2 (by norm_num)
    have h3 := hfail 3 (by norm_num)
    have hdial : dialBroker ok = ⟨true, [200, 400, 800, 1600], 5⟩ := by
      simp [dialBroker, dialBrokerRetries, dialBrokerWait, dialBrokerBackoff,
        dialLoop, h0, h1, h2, h3, hok5]
    refine ⟨hdial, ?_⟩
    simp [handleClient, hdial]
  · intro ok hfail
    have h0 := hfail 0 (by norm_num)
    have h1 := hfail 1 (by norm_num)
    have h2 := hfail 2 (by norm_num)
    have h3 := hfail 3 (by norm_num)
    have h4 := hfail 4 (by norm_num)
    have hdial : dialBroker ok = ⟨false, [200, 400, 800, 1600], 5⟩ := by
      simp [dialBroker, dialBrokerRetries, dialBrokerWait, dialBrokerBackoff,
        dialLoop, h0, h1, h2, h3, h4]
    refine ⟨hdial, ?_, rfl⟩
    simp [handleClient, hdial]

/-- Closed instance of `dial_broker_backoff`: a dialer succeeding only on
attempt index 4 (the 5th call) yields the connection after sleeps
200/400/800/1600 ms, and a dialer that always fails exhausts the 5
attempts, closes the accepted connection and reports the failure. -/
theorem dial_broker_backoff_witness :
    dialBroker (fun i => i == 4) = ⟨true, [200, 400, 800, 1600], 5⟩
    ∧ (handleClient (fun i => i == 4)).proceedsToPiping = true
    ∧ dialBroker (fun _ => false) = ⟨false, [200, 400, 800, 1600], 5⟩
    ∧ handleClient (fun _ => false) = ⟨false, true, true⟩ := by
  obtain ⟨hd1, hp1⟩ := dial_broker_backoff.2.1 (fun i => i == 4)
    (by decide) (by decide)
  obtain ⟨hd2, hp2, _⟩ := dial_broker_backoff.2.2 (fun _ => false) (by decide)
  exact ⟨hd1, hp1, hd2, hp2⟩

end Proxy
